import Mathlib

/-!
Verification of the blackboard-agent core: the capacity-bounded Blackboard
store, the agent loop's completion gate, the prompt builder's stall warning,
and the filesystem search tools.  Each definition is a shallow embedding of
the corresponding TypeScript function; `Date` values are modelled as epoch
milliseconds (`Nat`), JS numbers as `Nat`/`Int`, and JS `Map`s as
insertion-ordered association lists.
-/

namespace BlackboardAgent

/-- JS `String.prototype.trim`: strip leading and trailing whitespace. -/
def jsTrim (s : String) : String :=
  ⟨((s.data.dropWhile Char.isWhitespace).reverse.dropWhile Char.isWhitespace).reverse⟩

/-- JS `String.prototype.toUpperCase` (character-wise upcasing). -/
def jsToUpper (s : String) : String :=
  ⟨s.data.map Char.toUpper⟩

/-- The worker for `jsSplitLines`: accumulate the current line (reversed). -/
def splitLinesAux : List Char → List Char → List String
  | [], acc => [⟨acc.reverse⟩]
  | c :: rest, acc =>
      if c = '\n' then ⟨acc.reverse⟩ :: splitLinesAux rest []
      else splitLinesAux rest (c :: acc)

/-- JS `String.prototype.split('\n')`. -/
def jsSplitLines (s : String) : List String :=
  splitLinesAux s.data []

/-- `token-counter.ts`: `estimateTokens(text) = Math.ceil(text.trim().length / 4)`. -/
def estimateTokens (text : String) : Nat :=
  ((jsTrim text).length + 3) / 4

/-- `blackboard.ts`: `BlackboardSection` record; `updatedAt` is the `Date` in epoch ms. -/
structure BBSection where
  name : String
  content : String
  tokens : Nat
  updatedAt : Nat
deriving Repr, DecidableEq

/-- JS `Map.prototype.get` on an insertion-ordered association list. -/
def mapGet (m : List (String × BBSection)) (k : String) : Option BBSection :=
  match m with
  | [] => none
  | (k2, v) :: rest => if k2 = k then some v else mapGet rest k

/-- JS `Map.prototype.set`: an existing key keeps its insertion position and is
overwritten; a new key is appended at the end. -/
def mapSet (m : List (String × BBSection)) (k : String) (v : BBSection) :
    List (String × BBSection) :=
  match m with
  | [] => [(k, v)]
  | (k2, v2) :: rest => if k2 = k then (k, v) :: rest else (k2, v2) :: mapSet rest k v

/-- `blackboard.ts`: the `Blackboard` class state. -/
structure Blackboard where
  id : String
  targetPath : String
  sections : List (String × BBSection)
  maxTokens : Nat
  createdAt : Nat
  updatedAt : Nat
deriving Repr, DecidableEq

/-- The `Blackboard` constructor (id and clock are passed in, since the source
draws them from `Date.now()`/`Math.random()`). -/
def Blackboard.new (targetPath : String) (maxTokens : Nat) (id : String) (now : Nat) :
    Blackboard :=
  { id := id, targetPath := targetPath, sections := [], maxTokens := maxTokens,
    createdAt := now, updatedAt := now }

/-- Sum of the `tokens` fields over the section map (the loop in `getTotalTokens`). -/
def sectionsTotal : List (String × BBSection) → Nat
  | [] => 0
  | p :: rest => p.2.tokens + sectionsTotal rest

/-- `Blackboard.getTotalTokens`. -/
def Blackboard.getTotalTokens (bb : Blackboard) : Nat :=
  sectionsTotal bb.sections

/-- `Math.floor(maxTokens * OVERFLOW_FACTOR)` with `OVERFLOW_FACTOR = 1.2`:
for every token budget in range, the IEEE-double product `maxTokens * 1.2`
rounds to the same floor as the exact rational `6 * maxTokens / 5`, so the
hard cap is `⌊6 * maxTokens / 5⌋`. -/
def Blackboard.hardCap (bb : Blackboard) : Nat :=
  bb.maxTokens * 6 / 5

/-- The `{success, message}` result of `updateSection`. -/
structure UpdateResult where
  success : Bool
  message : String
deriving Repr, DecidableEq

/-- The candidate content computed at the top of `updateSection`: the delta on
replace-or-absent, otherwise the blank-line-separated concatenation (the
existing content is falsy when empty). -/
def newContentFor (currentSection : Option BBSection) (content : String)
    (replace : Bool) : String :=
  match currentSection, replace with
  | none, _ => content
  | some _, true => content
  | some cur, false =>
      if cur.content = "" then content else cur.content ++ "\n\n" ++ content

/-- `Blackboard.updateSection(sectionName, content, replace)`; returns the new
state together with the result (the source mutates `this`). -/
def Blackboard.updateSection (bb : Blackboard) (sectionName content : String)
    (replace : Bool) (now : Nat) : Blackboard × UpdateResult :=
  let currentSection := mapGet bb.sections sectionName
  let newContent : String := newContentFor currentSection content replace
  let newTokens := estimateTokens newContent
  let currentTotal := bb.getTotalTokens
  let currentSectionTokens : Nat := (currentSection.map (fun s => s.tokens)).getD 0
  let newTotal : Int := (currentTotal : Int) + ((newTokens : Int) - (currentSectionTokens : Int))
  let hardCap := bb.hardCap
  if newTotal > (hardCap : Int) then
    (bb, { success := false,
           message := "Update would exceed hard token limit (" ++ toString newTotal ++
             " > " ++ toString hardCap ++
             "). Consider replacing content or removing other sections." })
  else
    ({ bb with
        sections := mapSet bb.sections sectionName
          { name := sectionName, content := newContent, tokens := newTokens, updatedAt := now },
        updatedAt := now },
     { success := true,
       message := "Section \x27" ++ sectionName ++ "\x27 updated (" ++ toString newTokens ++
         " tokens)" })

/-- `Blackboard.getSection`: content of a section, `""` if absent. -/
def Blackboard.getSection (bb : Blackboard) (sectionName : String) : String :=
  ((mapGet bb.sections sectionName).map (fun s => s.content)).getD ""

/-- `Blackboard.getRemainingTokens`: `Math.max(0, maxTokens - totalTokens)`,
measured against the soft limit. -/
def Blackboard.getRemainingTokens (bb : Blackboard) : Int :=
  max 0 ((bb.maxTokens : Int) - (bb.getTotalTokens : Int))

/-- `Array.prototype.join(sep)`. -/
def joinSep (sep : String) : List String → String
  | [] => ""
  | [x] => x
  | x :: y :: rest => x ++ sep ++ joinSep sep (y :: rest)

/-- Parts pushed by the loop in `getAllSectionsForContext`: for each non-empty
section an upper-cased header, the content, and a blank part. -/
def sectionContextParts : List (String × BBSection) → List String
  | [] => []
  | (n, s) :: rest =>
      (if s.content = "" then [] else ["## " ++ jsToUpper n, s.content, ""]) ++
        sectionContextParts rest

/-- `Blackboard.getAllSectionsForContext`. -/
def Blackboard.getAllSectionsForContext (bb : Blackboard) : String :=
  joinSep "\n" (["=== BLACKBOARD ===\n"] ++ sectionContextParts bb.sections ++
    ["=== END BLACKBOARD ==="])

/-- `blackboard.ts`: the `BlackboardData` serialized shape (timestamps stay in
epoch ms; `toISOString`/`new Date(iso)` round-trip ms exactly). -/
structure BlackboardData where
  id : String
  targetPath : String
  sections : List (String × BBSection)
  totalTokens : Nat
  maxTokens : Nat
  createdAt : Nat
  updatedAt : Nat
deriving Repr, DecidableEq

/-- `Blackboard.toJSON`. -/
def Blackboard.toJSON (bb : Blackboard) : BlackboardData :=
  { id := bb.id, targetPath := bb.targetPath, sections := bb.sections,
    totalTokens := bb.getTotalTokens, maxTokens := bb.maxTokens,
    createdAt := bb.createdAt, updatedAt := bb.updatedAt }

/-- The loop in `Blackboard.fromJSON`: each entry whose content is truthy
(non-empty) is `set` into the fresh section map, in order. -/
def fromJSONSections (entries : List (String × BBSection)) : List (String × BBSection) :=
  entries.foldl
    (fun acc p => if p.2.content = "" then acc else mapSet acc p.1 p.2) []

/-- `Blackboard.fromJSON`. -/
def Blackboard.fromJSON (data : BlackboardData) : Blackboard :=
  { id := data.id, targetPath := data.targetPath,
    sections := fromJSONSections data.sections,
    maxTokens := data.maxTokens,
    createdAt := data.createdAt, updatedAt := data.updatedAt }

/-- One step of the loop in `Blackboard.seed`: write the entry in replace mode
and collect a failure line on rejection. -/
def seedStep (now : Nat) (acc : Blackboard × List String) (entry : String × String) :
    Blackboard × List String :=
  let r := acc.1.updateSection entry.1 entry.2 true now
  if r.2.success then (r.1, acc.2)
  else (r.1, acc.2 ++ [entry.1 ++ ": " ++ r.2.message])

/-- The blackboard and failure list accumulated by `Blackboard.seed`. -/
def seedFold (targetPath : String) (entries : List (String × String)) (maxTokens : Nat)
    (id : String) (now : Nat) : Blackboard × List String :=
  entries.foldl (seedStep now) (Blackboard.new targetPath maxTokens id now, [])

/-- `Blackboard.seed(targetPath, sections, maxTokens)`; the `throw` is modelled
as `Except.error` carrying the aggregate message. -/
def Blackboard.seed (targetPath : String) (entries : List (String × String))
    (maxTokens : Nat) (id : String) (now : Nat) : Except String Blackboard :=
  let r := seedFold targetPath entries maxTokens id now
  if r.2.length > 0 then
    .error ("Blackboard seed failed for " ++ toString r.2.length ++ " section(s):\n" ++
      joinSep "\n" r.2)
  else
    .ok r.1

/-- `agent-loop.ts`: the slice of `LoopState` that the completion gate reads
and writes (`anthropic`, `tools`, histories etc. are external collaborators). -/
structure LoopState where
  blackboard : Blackboard
  completionNudges : Nat
  iterationsSinceBlackboardWrite : Nat
  iterations : Nat
deriving Repr, DecidableEq

/-- JS `Math.round` on a non-negative rational: `⌊x + 1/2⌋`. -/
def jsRound (q : ℚ) : ℤ :=
  ⌊q + 1/2⌋

/-- Blackboard utilization as computed in `checkCompletionNudge`:
`getTotalTokens() / getMaxTokens()` (exact rational in the model; the claims
sit far from the 0.65 double-rounding boundary). -/
def utilization (bb : Blackboard) : ℚ :=
  (bb.getTotalTokens : ℚ) / (bb.maxTokens : ℚ)

/-- `checkCompletionNudge(state, response, hasToolUse)`: returns the nudge
message (or `none`) and the updated state. -/
def checkCompletionNudge (st : LoopState) (hasToolUse : Bool) (stopReason : String) :
    Option String × LoopState :=
  if hasToolUse && stopReason ≠ "end_turn" then (none, st)
  else
    let u := utilization st.blackboard
    if u ≥ 65/100 ∨ st.completionNudges ≥ 3 then (none, st)
    else
      (some ("Your blackboard is only " ++ toString (jsRound (u * 100)) ++
        "% utilized with " ++ toString st.blackboard.getRemainingTokens ++
        " tokens remaining. There is likely more to discover. Continue exploring and saving findings."),
       { st with completionNudges := st.completionNudges + 1 })

/-- The three ways `runSingleIteration` can resolve: continue with a nudge
exchange, return `null` (loop terminates), or dispatch the requested tools. -/
inductive IterationOutcome where
  | nudged (message : String)
  | completed
  | dispatchTools
deriving Repr, DecidableEq

/-- The control skeleton of `runSingleIteration`: bump the iteration counter,
apply the completion gate, otherwise terminate on a no-tool/end-of-turn
response, otherwise hand the response to tool dispatch. -/
def runSingleIteration (st : LoopState) (hasToolUse : Bool) (stopReason : String) :
    IterationOutcome × LoopState :=
  let st1 := { st with iterations := st.iterations + 1 }
  match checkCompletionNudge st1 hasToolUse stopReason with
  | (some msg, st2) => (.nudged msg, st2)
  | (none, st2) =>
      if !hasToolUse || stopReason = "end_turn" then (.completed, st2)
      else (.dispatchTools, st2)

/-- `analysis-profile.ts`: a suggested blackboard section. -/
structure SuggestedSection where
  name : String
  description : String
deriving Repr, DecidableEq

/-- `analysis-profile.ts`: the `AnalysisProfile` configuration bundle (its
complete field list — it carries no stall-warning threshold). -/
structure AnalysisProfile where
  name : String
  mission : String
  initialMessage : String
  suggestedSections : List SuggestedSection
  explorationHints : List String
  summaryInstructions : String
deriving Repr, DecidableEq

/-- A tool definition as the prompt builder reads it: name, description, and
the keys of the `input_schema.properties` object. -/
structure ToolDef where
  name : String
  description : String
  inputProperties : List String
deriving Repr, DecidableEq

/-- `prompts.ts`: `formatToolDescriptions`. -/
def formatToolDescriptions (tools : List ToolDef) : String :=
  joinSep "\n\n" (tools.enum.map (fun p =>
    toString (p.1 + 1) ++ ". **" ++ p.2.name ++ "(" ++ joinSep ", " p.2.inputProperties ++
      ")**: " ++ p.2.description))

/-- The head of the stall-warning template, up to the interpolated count. -/
def stallWarnHead : String :=
  "\n⚠️ WARNING: You have NOT written to the blackboard in "

/-- The tail of the stall-warning template, after the interpolated count. -/
def stallWarnTail : String :=
  " iterations.\nYour findings from previous iterations are LOST because only the blackboard persists.\nYou MUST call update_blackboard NOW before doing any more exploration.\nSummarize what you\x27ve learned so far and save it."

/-- `prompts.ts`: `buildStallWarning(iterationsSinceWrite)` — empty below the
fixed threshold of 2, otherwise one fixed template with the count spliced in. -/
def buildStallWarning (iterationsSinceWrite : Nat) : String :=
  if iterationsSinceWrite < 2 then ""
  else stallWarnHead ++ toString iterationsSinceWrite ++ stallWarnTail

/-- `prompts.ts`: `buildSectionsList`. -/
def buildSectionsList (profile : AnalysisProfile) : String :=
  joinSep "\n" (profile.suggestedSections.map (fun s =>
    "- **" ++ s.name ++ "**: " ++ s.description))

/-- `prompts.ts`: `buildExplorationHints`. -/
def buildExplorationHints (profile : AnalysisProfile) : String :=
  joinSep "\n" (profile.explorationHints.enum.map (fun p =>
    toString (p.1 + 1) ++ ". " ++ p.2))

/-- `prompts.ts`: `getExplorationToolNames`. -/
def getExplorationToolNames (tools : List ToolDef) : String :=
  joinSep ", " ((tools.filter (fun t => t.name ≠ "update_blackboard")).map (fun t => t.name))

/-- `prompts.ts`: `buildBlackboardSection`. -/
def buildBlackboardSection (blackboard : Blackboard) (hasContent : Bool) : String :=
  let status :=
    if hasContent then "**Continuing analysis.** Review existing blackboard content below."
    else "**Fresh analysis.** The blackboard is empty — start filling it."
  "## THE BLACKBOARD SYSTEM\n\nYou have access to a \"blackboard\" - a structured knowledge store where you save important findings.\n- **Token budget**: " ++
    toString blackboard.maxTokens ++ " tokens\n- **Current usage**: " ++
    toString blackboard.getTotalTokens ++ " tokens\n- **Remaining**: " ++
    toString blackboard.getRemainingTokens ++ " tokens\n\n" ++ status

/-- The fixed template of `generateSystemPrompt` up to the stall-warning
splice point. -/
def promptBeforeStall (blackboard : Blackboard) (profile : AnalysisProfile)
    (tools : List ToolDef) : String :=
  "You are an expert analysis agent. Your goal is to systematically explore a target and record your findings.\n\n## YOUR MISSION\n\n" ++
    profile.mission ++ "\n\nTarget: " ++ blackboard.targetPath ++
    "\n\n## CRITICAL RULE: ALWAYS SAVE YOUR FINDINGS\n\nYour working memory is extremely limited — only your LAST action is visible to you. Everything older is discarded. The ONLY way to preserve knowledge across iterations is the blackboard.\n\n**Every time you learn something new from a tool call, you MUST call update_blackboard in the SAME response to save your key findings.** If you explore without saving, you WILL forget what you found and repeat the same work.\n\nPattern for EVERY iteration:\n1. Call exploration tools (" ++
    getExplorationToolNames tools ++
    ")\n2. Call update_blackboard to save what you learned ← MANDATORY\n\nNEVER make a response with only exploration tools and no update_blackboard call.\n"

/-- The template of `generateSystemPrompt` after the stall-warning splice
point. -/
def promptAfterStall (blackboard : Blackboard) (profile : AnalysisProfile)
    (tools : List ToolDef) (toolHistorySummary : String) : String :=
  let hasContent := blackboard.getTotalTokens > 0
  "\n\n" ++ buildBlackboardSection blackboard hasContent ++
    "\n\n### Suggested Sections\n\nThese are suggestions. After initial exploration, add, remove, or rename sections as you see fit:\n" ++
    buildSectionsList profile ++
    "\n\n### Blackboard Strategy\n\n- Be concise and strategic - space is limited\n- Focus on insights, not just facts\n- Update sections as you learn more (use replace=true for better summaries)\n- Create new sections when you discover areas worth tracking\n- Prioritize what\x27s most important for your analysis\n\n## YOUR TOOLS\n\n" ++
    formatToolDescriptions tools ++
    "\n\n## EXPLORATION STRATEGY\n\n" ++
    buildExplorationHints profile ++
    "\n\n## IMPORTANT GUIDELINES\n\n- **Be efficient**: Don\x27t read every file - be strategic\n- **NEVER explore without saving**: Always call update_blackboard in the same response as exploration tools\n- **Don\x27t repeat yourself**: Check your progress history and blackboard before exploring\n- **Be concise**: Blackboard space is limited\n- **Short-term memory**: You can see your last action, but older history is discarded\n- **Long-term memory**: Important findings MUST go on the blackboard or they\x27re lost\n- **Signal completion**: When you\x27ve built a comprehensive understanding, explain what you learned\n\n## STOPPING CONDITIONS\n\nYou should stop your analysis when:\n- You have a solid understanding of the target\n- The blackboard captures the key insights from your analysis\n- You\x27ve explored the major components\n- Further exploration would provide diminishing returns\n\nWhen you\x27re done, provide a brief summary of your findings.\n" ++
    toolHistorySummary ++ "\n" ++
    (if hasContent then "\n## EXISTING BLACKBOARD CONTENT\n\n" ++ blackboard.getAllSectionsForContext
     else "") ++
    "\n\n## BEGIN\n\nStart exploring. Remember: be strategic, save findings to the blackboard, and build a comprehensive understanding."

/-- `prompts.ts`: `generateSystemPrompt(options)` — the template with the
stall warning spliced between the fixed before/after parts. -/
def generateSystemPrompt (blackboard : Blackboard) (profile : AnalysisProfile)
    (tools : List ToolDef) (toolHistorySummary : String)
    (iterationsSinceBlackboardWrite : Nat) : String :=
  promptBeforeStall blackboard profile tools ++
    buildStallWarning iterationsSinceBlackboardWrite ++
    promptAfterStall blackboard profile tools toolHistorySummary

/-- A filesystem tree for the search/list tools: files carry their text
content, directories their entries in `readdir` order. -/
inductive FSEntry where
  | file (name : String) (content : String)
  | dir (name : String) (entries : List FSEntry)
deriving Repr

/-- `fs-utils.ts`: `GrepResult`. -/
structure GrepResult where
  file : String
  line : Nat
  content : String
  m : String
deriving Repr, DecidableEq

/-- `fs-utils.ts`: `GrepContext` (the mutable result accumulator). -/
structure GrepContext where
  results : List GrepResult
  maxResults : Nat
deriving Repr, DecidableEq

/-- JS `String.prototype.startsWith('.')`: the first character is a dot. -/
def startsWithDot (s : String) : Bool :=
  match s.data with
  | c :: _ => c = '.'
  | [] => false

/-- JS `String.prototype.endsWith(suffix)` on the character list. -/
def endsWithStr (s suffix : String) : Bool :=
  s.data.reverse.take suffix.data.length = suffix.data.reverse

/-- `fs-utils.ts`: `IGNORED_ENTRIES` plus the dotfile check in
`shouldIgnoreEntry`. -/
def shouldIgnoreEntry (entry : String) : Bool :=
  startsWithDot entry || entry ∈ ["node_modules", "dist", "build", "coverage"]

/-- `fs-utils.ts`: `isTextFile` — the `\.(ts|js|json|md|txt|tsx|jsx|css|html|yml|yaml)$`
extension allow-list. -/
def isTextFile (filePath : String) : Bool :=
  ["ts", "js", "json", "md", "txt", "tsx", "jsx", "css", "html", "yml", "yaml"].any
    (fun ext => endsWithStr filePath ("." ++ ext))

/-- `fs-utils.ts`: `collectLineMatch` — the per-line short-circuit: nothing is
pushed once `maxResults` results are collected.  The regex engine is an
external collaborator, abstracted as `matchLine : String → Option String`
returning the matched substring `m[0]`. -/
def collectLineMatch (matchLine : String → Option String) (line : String)
    (lineNum : Nat) (filePath : String) (ctx : GrepContext) : GrepContext :=
  if ctx.results.length ≥ ctx.maxResults then ctx
  else
    match matchLine line with
    | some m =>
        { ctx with results := ctx.results ++
            [{ file := filePath, line := lineNum, content := jsTrim line, m := m }] }
    | none => ctx

/-- `fs-utils.ts`: `searchFileForPattern` — split on newlines and fold
`collectLineMatch` over the numbered lines. -/
def searchFileForPattern (matchLine : String → Option String) (filePath : String)
    (content : String) (ctx : GrepContext) : GrepContext :=
  if ctx.results.length ≥ ctx.maxResults then ctx
  else
    (jsSplitLines content).enum.foldl
      (fun c p => collectLineMatch matchLine p.2 (p.1 + 1) filePath c) ctx

mutual

/-- `fs-utils.ts`: `processGrepEntry` — skip ignored names, recurse into
directories, search text files. -/
def processGrepEntry (matchLine : String → Option String) (dirPath : String)
    (e : FSEntry) (ctx : GrepContext) : GrepContext :=
  match e with
  | .file n content =>
      if shouldIgnoreEntry n then ctx
      else if isTextFile (dirPath ++ "/" ++ n) then
        searchFileForPattern matchLine (dirPath ++ "/" ++ n) content ctx
      else ctx
  | .dir n entries =>
      if shouldIgnoreEntry n then ctx
      else walkDirectoryForGrep matchLine (dirPath ++ "/" ++ n) entries ctx

/-- `fs-utils.ts`: `walkDirectoryForGrep` — early return when full, else
process every entry in order. -/
def walkDirectoryForGrep (matchLine : String → Option String) (dirPath : String)
    (entries : List FSEntry) (ctx : GrepContext) : GrepContext :=
  if ctx.results.length ≥ ctx.maxResults then ctx
  else grepEntriesLoop matchLine dirPath entries ctx

/-- The `for` loop inside `walkDirectoryForGrep`. -/
def grepEntriesLoop (matchLine : String → Option String) (dirPath : String)
    (entries : List FSEntry) (ctx : GrepContext) : GrepContext :=
  match entries with
  | [] => ctx
  | e :: rest =>
      grepEntriesLoop matchLine dirPath rest (processGrepEntry matchLine dirPath e ctx)

end

/-- `fs-utils.ts`: `grepSearch(pattern, targetPath, maxResults)` over a modelled
filesystem target. -/
def grepSearch (matchLine : String → Option String) (targetPath : String)
    (target : FSEntry) (maxResults : Nat) : List GrepResult :=
  let ctx : GrepContext := { results := [], maxResults := maxResults }
  match target with
  | .file _ content => (searchFileForPattern matchLine targetPath content ctx).results
  | .dir _ entries => (walkDirectoryForGrep matchLine targetPath entries ctx).results

/-- `fs-utils.ts`: `FileInfo` (size present only for files). -/
structure FileInfo where
  name : String
  path : String
  isDirectory : Bool
  size : Option Nat
deriving Repr, DecidableEq

/-- `tool-definitions.ts`: `formatSize`. Byte counts below 1KB — the only case
exercised by the claims — print as `${bytes}B`; larger sizes go through
IEEE-double `toFixed(1)`, which the model keeps abstract by rendering the
rounded tenths of KB/MB. -/
def formatSize (bytes : Nat) : String :=
  if bytes < 1024 then toString bytes ++ "B"
  else if bytes < 1024 * 1024 then
    toString ((bytes * 10 + 512) / 1024 / 10) ++ "." ++ toString ((bytes * 10 + 512) / 1024 % 10) ++ "KB"
  else
    toString ((bytes * 10 + 524288) / 1048576 / 10) ++ "." ++ toString ((bytes * 10 + 524288) / 1048576 % 10) ++ "MB"

/-- JS `Map<string, FileInfo[]>` grouping used by `formatFileList`: first-seen
key order, values appended. -/
def groupByDir (files : List FileInfo) (basePath : String) : List (String × List FileInfo) :=
  files.foldl
    (fun acc f =>
      let dir := dirOfPath f.path basePath
      if acc.any (fun p => p.1 = dir) then
        acc.map (fun p => if p.1 = dir then (p.1, p.2 ++ [f]) else p)
      else acc ++ [(dir, [f])])
    []
where
  /-- The characters strictly before the last `'/'`, when one exists. -/
  beforeLastSlash : List Char → Option (List Char)
    | [] => none
    | c :: rest =>
        match beforeLastSlash rest with
        | some r => some (c :: r)
        | none => if c = '/' then some [] else none
  /-- `file.path.substring(0, lastIndexOf('/') || 0) || basePath`: no slash or a
  leading slash yields the falsy `""`, which falls back to `basePath`. -/
  dirOfPath (path basePath : String) : String :=
    let cut : String := ((beforeLastSlash path.data).map (fun l => (⟨l⟩ : String))).getD ""
    if cut = "" then basePath else cut

/-- Code-unit lexicographic order on character lists (JS default sort order). -/
def lexLe : List Char → List Char → Bool
  | [], _ => true
  | _ :: _, [] => false
  | a :: as, b :: bs => if a = b then lexLe as bs else decide (a < b)

/-- Insert a string into a lexicographically sorted list. -/
def insertSorted (x : String) : List String → List String
  | [] => [x]
  | y :: rest => if lexLe x.data y.data then x :: y :: rest else y :: insertSorted x rest

/-- JS `Array.prototype.sort()` on strings: lexicographic ascending. -/
def sortStrings (l : List String) : List String :=
  l.foldr insertSorted []

/-- `tool-definitions.ts`: `formatFileList(files, basePath)` — header line with
the item count, then the files grouped by sorted directory. -/
def formatFileList (files : List FileInfo) (basePath : String) : String :=
  let byDirectory := groupByDir files basePath
  let sortedDirs := sortStrings (byDirectory.map (fun p => p.1))
  let dirLines := sortedDirs.foldl
    (fun acc dir =>
      let dirFiles := ((byDirectory.find? (fun p => p.1 = dir)).map (fun p => p.2)).getD []
      acc ++ ["\n" ++ dir ++ "/"] ++ dirFiles.map (fun f =>
        let icon := if f.isDirectory then String.singleton (Char.ofNat 0x1F4C1)
                    else String.singleton (Char.ofNat 0x1F4C4)
        let size := match f.size with
          | some n => if n ≠ 0 then " (" ++ formatSize n ++ ")" else ""
          | none => ""
        "  " ++ icon ++ " " ++ f.name ++ size))
    []
  joinSep "\n" (["Found " ++ toString files.length ++ " items:\n"] ++ dirLines)

mutual

/-- `fs-utils.ts`: `processDirectoryEntry` — push a record for the entry (with
byte size for files, modelled as the content length) and recurse into
directories while depth remains. -/
def processDirectoryEntry (targetPath : String) (maxDepth currentDepth : Nat)
    (e : FSEntry) : List FileInfo :=
  match e with
  | .dir n entries =>
      if shouldIgnoreEntry n then []
      else
        [{ name := n, path := targetPath ++ "/" ++ n, isDirectory := true, size := none }] ++
          (if currentDepth + 1 < maxDepth then
            listDirectory (targetPath ++ "/" ++ n) entries maxDepth (currentDepth + 1)
           else [])
  | .file n content =>
      if shouldIgnoreEntry n then []
      else [{ name := n, path := targetPath ++ "/" ++ n, isDirectory := false,
              size := some content.length }]
termination_by (sizeOf e, 0)

/-- `fs-utils.ts`: `listDirectory(targetPath, maxDepth, currentDepth)` over the
modelled directory contents. -/
def listDirectory (targetPath : String) (entries : List FSEntry)
    (maxDepth currentDepth : Nat) : List FileInfo :=
  if currentDepth ≥ maxDepth then []
  else dirEntriesLoop targetPath entries maxDepth currentDepth
termination_by (sizeOf entries, 1)

/-- The `for` loop inside `listDirectory`. -/
def dirEntriesLoop (targetPath : String) (entries : List FSEntry)
    (maxDepth currentDepth : Nat) : List FileInfo :=
  match entries with
  | [] => []
  | e :: rest =>
      processDirectoryEntry targetPath maxDepth currentDepth e ++
        dirEntriesLoop targetPath rest maxDepth currentDepth
termination_by (sizeOf entries, 0)

end

/-- `tool-definitions.ts`: the output string produced by `executeListDir` for a
directory target: `formatFileList(listDirectory(path, maxDepth), path)`. -/
def executeListDirOutput (path : String) (entries : List FSEntry) (maxDepth : Nat) :
    String :=
  formatFileList (listDirectory path entries (min maxDepth 5) 0) path

/-- `tool-definitions.ts`: `formatGrepResults(results, pattern)`. -/
def formatGrepResults (results : List GrepResult) (pattern : String) : String :=
  let byFile := results.foldl
    (fun acc r =>
      if acc.any (fun p => p.1 = r.file) then
        acc.map (fun p => if p.1 = r.file then (p.1, p.2 ++ [r]) else p)
      else acc ++ [(r.file, [r])])
    ([] : List (String × List GrepResult))
  let fileLines := byFile.foldl
    (fun acc p =>
      acc ++ ["\n" ++ p.1 ++ " (" ++ toString p.2.length ++ " matches):"] ++
        p.2.map (fun r => "  Line " ++ toString r.line ++ ": " ++ r.content))
    []
  joinSep "\n" (["Found " ++ toString results.length ++ " matches for pattern: " ++ pattern ++ "\n"] ++ fileLines)

/-- `tool-definitions.ts`: the output string produced by `executeGrepSearch`
from the collected results. -/
def executeGrepSearchOutput (pattern : String) (results : List GrepResult) : String :=
  if results.length = 0 then "No matches found for pattern: " ++ pattern
  else formatGrepResults results pattern

/-- One recorded call to `updateSection` (the clock value is part of the call). -/
structure UpdateCall where
  name : String
  content : String
  replace : Bool
  now : Nat
deriving Repr, DecidableEq

/-- Run a sequence of `updateSection` calls, keeping only the state. -/
def applyCalls (bb : Blackboard) (calls : List UpdateCall) : Blackboard :=
  calls.foldl (fun b c => (b.updateSection c.name c.content c.replace c.now).1) bb

theorem sectionsTotal_mapSet (m : List (String × BBSection)) (k : String) (v : BBSection) :
    (sectionsTotal (mapSet m k v) : ℤ) =
      (sectionsTotal m : ℤ) + (v.tokens : ℤ) -
        ((((mapGet m k).map (fun s => s.tokens)).getD 0 : ℕ) : ℤ) := by
  induction m with
  | nil => simp [mapSet, mapGet, sectionsTotal]
  | cons p rest ih =>
      obtain ⟨k2, v2⟩ := p
      by_cases h : k2 = k
      · simp [mapSet, mapGet, sectionsTotal, h]
        ring
      · simp only [mapSet, mapGet, if_neg h, sectionsTotal]
        push_cast
        push_cast at ih
        omega

theorem mapGet_tokens_le (m : List (String × BBSection)) (k : String) :
    ((mapGet m k).map (fun s => s.tokens)).getD 0 ≤ sectionsTotal m := by
  induction m with
  | nil => simp [mapGet, sectionsTotal]
  | cons p rest ih =>
      obtain ⟨k2, v2⟩ := p
      by_cases h : k2 = k
      · simp [mapGet, sectionsTotal, h]
      · simp only [mapGet, if_neg h, sectionsTotal]
        omega

theorem updateSection_fail_eq (bb : Blackboard) (name content : String) (replace : Bool)
    (now : Nat) (h : (bb.updateSection name content replace now).2.success = false) :
    (bb.updateSection name content replace now).1 = bb := by
  unfold Blackboard.updateSection at h ⊢
  dsimp only at h ⊢
  split at h
  · rename_i hc
    rw [if_pos hc]
  · simp at h

theorem updateSection_maxTokens (bb : Blackboard) (name content : String) (replace : Bool)
    (now : Nat) : (bb.updateSection name content replace now).1.maxTokens = bb.maxTokens := by
  unfold Blackboard.updateSection
  dsimp only
  split <;> rfl

theorem updateSection_total_le (bb : Blackboard) (name content : String) (replace : Bool)
    (now : Nat) (h : bb.getTotalTokens ≤ bb.maxTokens * 6 / 5) :
    (bb.updateSection name content replace now).1.getTotalTokens ≤ bb.maxTokens * 6 / 5 := by
  unfold Blackboard.updateSection
  dsimp only
  split
  · exact h
  · rename_i hle
    simp only [not_lt] at hle
    show sectionsTotal (mapSet bb.sections name _) ≤ bb.maxTokens * 6 / 5
    have htot := sectionsTotal_mapSet bb.sections name
      { name := name,
        content := newContentFor (mapGet bb.sections name) content replace,
        tokens := estimateTokens (newContentFor (mapGet bb.sections name) content replace),
        updatedAt := now }
    have hcap : (bb.hardCap : ℤ) = ((bb.maxTokens * 6 / 5 : Nat) : ℤ) := rfl
    rw [hcap] at hle
    have hget := mapGet_tokens_le bb.sections name
    dsimp only at htot
    simp only [Blackboard.getTotalTokens] at hle ⊢
    omega

theorem applyCalls_maxTokens (bb : Blackboard) (calls : List UpdateCall) :
    (applyCalls bb calls).maxTokens = bb.maxTokens := by
  induction calls generalizing bb with
  | nil => rfl
  | cons c rest ih =>
      have h1 := ih ((bb.updateSection c.name c.content c.replace c.now).1)
      have h2 := updateSection_maxTokens bb c.name c.content c.replace c.now
      simpa [applyCalls, h2] using h1

theorem applyCalls_total_le (bb : Blackboard) (calls : List UpdateCall)
    (h : bb.getTotalTokens ≤ bb.maxTokens * 6 / 5) :
    (applyCalls bb calls).getTotalTokens ≤ (applyCalls bb calls).maxTokens * 6 / 5 := by
  induction calls generalizing bb with
  | nil => simpa [applyCalls] using h
  | cons c rest ih =>
      have h1 := updateSection_total_le bb c.name c.content c.replace c.now h
      have h2 : (bb.updateSection c.name c.content c.replace c.now).1.getTotalTokens ≤
          (bb.updateSection c.name c.content c.replace c.now).1.maxTokens * 6 / 5 := by
        rw [updateSection_maxTokens]; exact h1
      have h3 := ih ((bb.updateSection c.name c.content c.replace c.now).1) h2
      simpa [applyCalls] using h3

/-- C1: starting from a fresh blackboard, no sequence of `updateSection` calls
ever drives the section-token sum above `⌊maxTokens * 1.2⌋`; any single call
would-be breach returns `success = false` and leaves the whole blackboard
state (sections, token counts, totals, timestamps) unchanged. -/
theorem updateSection_capacity_invariant :
    (∀ (targetPath : String) (maxTokens : Nat) (id : String) (now : Nat)
        (calls : List UpdateCall),
        (applyCalls (Blackboard.new targetPath maxTokens id now) calls).getTotalTokens ≤
          maxTokens * 6 / 5) ∧
    (∀ (bb : Blackboard) (name content : String) (replace : Bool) (now : Nat),
        bb.getTotalTokens ≤ bb.hardCap →
          (bb.updateSection name content replace now).1.getTotalTokens ≤ bb.hardCap) ∧
    (∀ (bb : Blackboard) (name content : String) (replace : Bool) (now : Nat),
        (bb.updateSection name content replace now).2.success = false →
          (bb.updateSection name content replace now).1 = bb) := by
  refine ⟨?_, ?_, ?_⟩
  · intro targetPath maxTokens id now calls
    have h0 : (Blackboard.new targetPath maxTokens id now).getTotalTokens ≤
        (Blackboard.new targetPath maxTokens id now).maxTokens * 6 / 5 := by
      simp [Blackboard.new, Blackboard.getTotalTokens, sectionsTotal]
    have h := applyCalls_total_le (Blackboard.new targetPath maxTokens id now) calls h0
    rwa [applyCalls_maxTokens] at h
  · intro bb name content replace now h
    exact updateSection_total_le bb name content replace now h
  · intro bb name content replace now h
    exact updateSection_fail_eq bb name content replace now h

/-- Witness for C1 at a concrete breaching call: on a zero-budget blackboard a
five-character write is rejected and the state is returned unchanged. -/
theorem updateSection_capacity_invariant_witness :
    ((Blackboard.new "t" 0 "i" 0).updateSection "a" "xxxxx" false 0).1.getTotalTokens ≤
        (Blackboard.new "t" 0 "i" 0).hardCap ∧
      ((Blackboard.new "t" 0 "i" 0).updateSection "a" "xxxxx" false 0).1 =
        Blackboard.new "t" 0 "i" 0 :=
  ⟨updateSection_capacity_invariant.2.1 (Blackboard.new "t" 0 "i" 0) "a" "xxxxx" false 0
      (by decide),
   updateSection_capacity_invariant.2.2 (Blackboard.new "t" 0 "i" 0) "a" "xxxxx" false 0
      (by decide)⟩

/-- C2: with no tool requested, a sub-65%-utilization blackboard and fewer than
3 prior nudges yield a nudge continuation (message injected, nudge counter
incremented); utilization at or above 65% yields loop termination instead. -/
theorem completion_gate_spec (st : LoopState) (stopReason : String) :
    (utilization st.blackboard < 65/100 → st.completionNudges < 3 →
      ∃ msg, runSingleIteration st false stopReason =
        (.nudged msg,
         { st with iterations := st.iterations + 1,
                   completionNudges := st.completionNudges + 1 })) ∧
    (utilization st.blackboard ≥ 65/100 →
      runSingleIteration st false stopReason =
        (.completed, { st with iterations := st.iterations + 1 })) := by
  constructor
  · intro hu hn
    unfold runSingleIteration checkCompletionNudge
    dsimp only
    rw [if_neg (by simp)]
    rw [if_neg (by push_neg; exact ⟨by simpa using hu, by simpa using hn⟩)]
    exact ⟨_, rfl⟩
  · intro hu
    unfold runSingleIteration checkCompletionNudge
    dsimp only
    rw [if_neg (by simp)]
    rw [if_pos (Or.inl (by simpa using hu))]
    simp

/-- A 4-token-budget blackboard holding one 2-token section: 50% utilized. -/
def bbHalf : Blackboard :=
  { id := "i", targetPath := "t",
    sections := [("notes", { name := "notes", content := "xxxxxxxx", tokens := 2, updatedAt := 0 })],
    maxTokens := 4, createdAt := 0, updatedAt := 0 }

/-- A 10-token-budget blackboard holding one 7-token section: 70% utilized. -/
def bbSeventy : Blackboard :=
  { id := "i", targetPath := "t",
    sections := [("notes",
      { name := "notes", content := "xxxxxxxxxxxxxxxxxxxxxxxxxxxx", tokens := 7, updatedAt := 0 })],
    maxTokens := 10, createdAt := 0, updatedAt := 0 }

/-- Loop state at 50% utilization with zero prior nudges. -/
def st50 : LoopState :=
  { blackboard := bbHalf, completionNudges := 0,
    iterationsSinceBlackboardWrite := 0, iterations := 0 }

/-- Loop state at 70% utilization with zero prior nudges. -/
def st70 : LoopState :=
  { blackboard := bbSeventy, completionNudges := 0,
    iterationsSinceBlackboardWrite := 0, iterations := 0 }

/-- Witness for C2: at 50% utilization and zero nudges a toolless `end_turn`
response is nudged onward; at 70% the same response terminates the loop. -/
theorem completion_gate_spec_witness :
    (∃ msg, runSingleIteration st50 false "end_turn" =
      (.nudged msg, { st50 with iterations := 1, completionNudges := 1 })) ∧
    runSingleIteration st70 false "end_turn" =
      (.completed, { st70 with iterations := 1 }) :=
  ⟨(completion_gate_spec st50 "end_turn").1
      (by norm_num [utilization, bbHalf, st50, Blackboard.getTotalTokens, sectionsTotal])
      (by decide),
   (completion_gate_spec st70 "end_turn").2
      (by norm_num [utilization, bbSeventy, st70, Blackboard.getTotalTokens, sectionsTotal])⟩


/-- The state/result produced by a non-rejected `updateSection` call, phrased
against the admission-control condition. -/
theorem updateSection_success_state (bb : Blackboard) (name content : String)
    (replace : Bool) (now : Nat)
    (h : ¬((bb.getTotalTokens : ℤ) +
        ((estimateTokens (newContentFor (mapGet bb.sections name) content replace) : ℤ) -
          ((((mapGet bb.sections name).map (fun s => s.tokens)).getD 0 : ℕ) : ℤ)) >
        (bb.hardCap : ℤ))) :
    bb.updateSection name content replace now =
      ({ bb with
          sections := mapSet bb.sections name
            { name := name,
              content := newContentFor (mapGet bb.sections name) content replace,
              tokens := estimateTokens (newContentFor (mapGet bb.sections name) content replace),
              updatedAt := now },
          updatedAt := now },
       { success := true,
         message := "Section \x27" ++ name ++ "\x27 updated (" ++
           toString (estimateTokens (newContentFor (mapGet bb.sections name) content replace)) ++
           " tokens)" }) := by
  unfold Blackboard.updateSection
  dsimp only
  rw [if_neg h]

/-- C6: two append-mode writes `"a"` then `"b"` to the same section of a fresh
default-budget blackboard store `"a"`, a blank-line separator, then `"b"`. -/
theorem append_accumulation (targetPath id name : String) (now0 now1 now2 : Nat) :
    ((((Blackboard.new targetPath 4000 id now0).updateSection name "a" false now1).1).updateSection
        name "b" false now2).1.getSection name = "a" ++ "\n\n" ++ "b" := by
  have h1 : estimateTokens "a" = 1 := by decide
  have h2 : estimateTokens ("a" ++ "\n\n" ++ "b") = 1 := by decide
  have e0 : mapGet (Blackboard.new targetPath 4000 id now0).sections name = none := rfl
  have hc1 : ¬(((Blackboard.new targetPath 4000 id now0).getTotalTokens : ℤ) +
      ((estimateTokens (newContentFor (mapGet (Blackboard.new targetPath 4000 id now0).sections name) "a" false) : ℤ) -
        ((((mapGet (Blackboard.new targetPath 4000 id now0).sections name).map (fun s => s.tokens)).getD 0 : ℕ) : ℤ)) >
      ((Blackboard.new targetPath 4000 id now0).hardCap : ℤ)) := by
    rw [e0]
    show ¬((0 : ℤ) + ((estimateTokens "a" : ℤ) - ((0 : ℕ) : ℤ)) > ((4000 * 6 / 5 : ℕ) : ℤ))
    rw [h1]
    norm_num
  rw [updateSection_success_state (Blackboard.new targetPath 4000 id now0) name "a" false now1 hc1]
  rw [e0]
  dsimp only
  show (({ id := id, targetPath := targetPath,
           sections := [(name, { name := name, content := "a", tokens := estimateTokens "a", updatedAt := now1 })],
           maxTokens := 4000, createdAt := now0, updatedAt := now1 } : Blackboard).updateSection
        name "b" false now2).1.getSection name = "a" ++ "\n\n" ++ "b"
  rw [h1]
  set bb1 : Blackboard :=
    { id := id, targetPath := targetPath,
      sections := [(name, { name := name, content := "a", tokens := 1, updatedAt := now1 })],
      maxTokens := 4000, createdAt := now0, updatedAt := now1 } with hbb1
  have e1 : mapGet bb1.sections name =
      some { name := name, content := "a", tokens := 1, updatedAt := now1 } := by
    rw [hbb1]
    simp [mapGet]
  have enc : newContentFor (some { name := name, content := "a", tokens := 1, updatedAt := now1 }) "b" false =
      "a" ++ "\n\n" ++ "b" := by
    simp [newContentFor]
  have etot : bb1.getTotalTokens = 1 := by
    rw [hbb1]
    simp [Blackboard.getTotalTokens, sectionsTotal]
  have ecap : bb1.hardCap = 4800 := by
    rw [hbb1]
    show 4000 * 6 / 5 = 4800
    norm_num
  have hc2 : ¬((bb1.getTotalTokens : ℤ) +
      ((estimateTokens (newContentFor (mapGet bb1.sections name) "b" false) : ℤ) -
        ((((mapGet bb1.sections name).map (fun s => s.tokens)).getD 0 : ℕ) : ℤ)) >
      (bb1.hardCap : ℤ)) := by
    rw [e1, enc, h2, etot, ecap]
    norm_num
  rw [updateSection_success_state bb1 name "b" false now2 hc2]
  dsimp only
  rw [e1, enc]
  unfold Blackboard.getSection
  dsimp only
  have e2 : mapGet (mapSet bb1.sections name
      { name := name, content := "a" ++ "\n\n" ++ "b",
        tokens := estimateTokens ("a" ++ "\n\n" ++ "b"), updatedAt := now2 }) name =
      some { name := name, content := "a" ++ "\n\n" ++ "b",
             tokens := estimateTokens ("a" ++ "\n\n" ++ "b"), updatedAt := now2 } := by
    rw [hbb1]
    simp [mapGet, mapSet]
  rw [e2]
  rfl


/-- C10: on a section that is absent (or present with empty content), append
mode computes the same candidate content as replace mode, so the two calls
return identical states and results. -/
theorem append_replace_agree (bb : Blackboard) (name content : String) (now : Nat)
    (h : mapGet bb.sections name = none ∨
      ∃ s, mapGet bb.sections name = some s ∧ s.content = "") :
    bb.updateSection name content false now = bb.updateSection name content true now := by
  unfold Blackboard.updateSection
  dsimp only
  have hnc : newContentFor (mapGet bb.sections name) content false =
      newContentFor (mapGet bb.sections name) content true := by
    rcases h with h | ⟨s, hs, hc⟩
    · rw [h]
      rfl
    · rw [hs]
      simp [newContentFor, hc]
  rw [hnc]

/-- Witness for C10: on a fresh blackboard the section is absent, and the
append-mode and replace-mode writes coincide. -/
theorem append_replace_agree_witness :
    (Blackboard.new "t" 4000 "i" 0).updateSection "s" "hello" false 7 =
      (Blackboard.new "t" 4000 "i" 0).updateSection "s" "hello" true 7 :=
  append_replace_agree (Blackboard.new "t" 4000 "i" 0) "s" "hello" 7 (Or.inl rfl)

/-- C7: `getRemainingTokens` is clamped at zero and measures the soft limit
(`maxTokens - total` when under budget, 0 once at or over it), while admission
control uses the 1.2x hard cap: concretely, a 10-token-budget blackboard
filled to 10 tokens reports 0 remaining yet still accepts a further 2-token
write. -/
theorem remaining_tokens_spec :
    (∀ bb : Blackboard, 0 ≤ bb.getRemainingTokens) ∧
    (∀ bb : Blackboard, bb.maxTokens ≤ bb.getTotalTokens → bb.getRemainingTokens = 0) ∧
    (∀ bb : Blackboard, bb.getTotalTokens < bb.maxTokens →
      bb.getRemainingTokens = (bb.maxTokens : ℤ) - (bb.getTotalTokens : ℤ)) ∧
    (((Blackboard.new "t" 10 "i" 0).updateSection "a"
        "xxxxxxxxxxxxxxxxxxxxxxxxxxxxxxxxxxxxxxxx" true 0).1.getRemainingTokens = 0 ∧
      (((Blackboard.new "t" 10 "i" 0).updateSection "a"
        "xxxxxxxxxxxxxxxxxxxxxxxxxxxxxxxxxxxxxxxx" true 0).1.updateSection "b"
        "xxxxxxxx" false 0).2.success = true) := by
  refine ⟨?_, ?_, ?_, ?_⟩
  · intro bb
    exact le_max_left 0 _
  · intro bb h
    simp only [Blackboard.getRemainingTokens]
    omega
  · intro bb h
    simp only [Blackboard.getRemainingTokens]
    omega
  · constructor
    · decide
    · decide

/-- Witness for C7: a fresh 4-token board reports `4 - 0` remaining; the full
10-token board reports 0. -/
theorem remaining_tokens_spec_witness :
    (Blackboard.new "t" 4 "i" 0).getRemainingTokens =
        ((Blackboard.new "t" 4 "i" 0).maxTokens : ℤ) -
          ((Blackboard.new "t" 4 "i" 0).getTotalTokens : ℤ) ∧
      ((Blackboard.new "t" 10 "i" 0).updateSection "a"
        "xxxxxxxxxxxxxxxxxxxxxxxxxxxxxxxxxxxxxxxx" true 0).1.getRemainingTokens = 0 :=
  ⟨remaining_tokens_spec.2.2.1 (Blackboard.new "t" 4 "i" 0) (by decide),
   remaining_tokens_spec.2.1 _ (by decide)⟩


theorem mapGet_eq_none_of_not_mem (m : List (String × BBSection)) (k : String)
    (h : k ∉ m.map Prod.fst) : mapGet m k = none := by
  induction m with
  | nil => rfl
  | cons p rest ih =>
      simp only [List.map_cons, List.mem_cons] at h
      push_neg at h
      obtain ⟨k2, v2⟩ := p
      simp only [mapGet]
      have hne : ¬k2 = k := fun he => h.1 he.symm
      rw [if_neg hne]
      exact ih h.2

theorem mapSet_not_mem (m : List (String × BBSection)) (k : String) (v : BBSection)
    (h : k ∉ m.map Prod.fst) : mapSet m k v = m ++ [(k, v)] := by
  induction m with
  | nil => rfl
  | cons p rest ih =>
      simp only [List.map_cons, List.mem_cons] at h
      push_neg at h
      obtain ⟨k2, v2⟩ := p
      simp only [mapSet]
      have hne : ¬k2 = k := fun he => h.1 he.symm
      rw [if_neg hne]
      simp [ih h.2]

/-- The sections kept by `fromJSON`: those with non-empty (truthy) content. -/
def keepNonEmpty : List (String × BBSection) → List (String × BBSection)
  | [] => []
  | p :: rest => if p.2.content = "" then keepNonEmpty rest else p :: keepNonEmpty rest

theorem keepNonEmpty_keys_sub (l : List (String × BBSection)) :
    ∀ k, k ∈ (keepNonEmpty l).map Prod.fst → k ∈ l.map Prod.fst := by
  induction l with
  | nil => simp [keepNonEmpty]
  | cons p rest ih =>
      intro k hk
      simp only [keepNonEmpty] at hk
      by_cases h : p.2.content = ""
      · rw [if_pos h] at hk
        simp only [List.map_cons, List.mem_cons]
        exact Or.inr (ih k hk)
      · rw [if_neg h] at hk
        simp only [List.map_cons, List.mem_cons] at hk ⊢
        rcases hk with hk | hk
        · exact Or.inl hk
        · exact Or.inr (ih k hk)

theorem fromJSONSections_aux (l : List (String × BBSection)) :
    ∀ acc : List (String × BBSection),
      (∀ p ∈ l, p.1 ∉ acc.map Prod.fst) →
      (l.map Prod.fst).Nodup →
      l.foldl (fun acc p => if p.2.content = "" then acc else mapSet acc p.1 p.2) acc =
        acc ++ keepNonEmpty l := by
  induction l with
  | nil => intro acc _ _; simp [keepNonEmpty]
  | cons p rest ih =>
      intro acc hacc hnd
      simp only [List.map_cons, List.nodup_cons] at hnd
      simp only [List.foldl_cons, keepNonEmpty]
      by_cases h : p.2.content = ""
      · rw [if_pos h, if_pos h]
        exact ih acc (fun q hq => hacc q (List.mem_cons_of_mem p hq)) hnd.2
      · rw [if_neg h, if_neg h]
        rw [mapSet_not_mem acc p.1 p.2 (hacc p (List.mem_cons_self p rest))]
        have hstep := ih (acc ++ [p]) ?_ hnd.2
        · rw [hstep, List.append_assoc]
          rfl
        · intro q hq
          simp only [List.map_append, List.mem_append, List.map_cons]
          push_neg
          refine ⟨hacc q (List.mem_cons_of_mem p hq), ?_⟩
          simp only [List.map_nil, List.mem_singleton]
          intro hqp
          exact hnd.1 (hqp ▸ List.mem_map_of_mem Prod.fst hq)

theorem fromJSONSections_eq_keep (l : List (String × BBSection))
    (hnd : (l.map Prod.fst).Nodup) : fromJSONSections l = keepNonEmpty l := by
  have h := fromJSONSections_aux l [] (by simp) hnd
  simpa [fromJSONSections] using h

theorem mapGet_keepNonEmpty (l : List (String × BBSection))
    (hnd : (l.map Prod.fst).Nodup) (k : String) :
    mapGet (keepNonEmpty l) k =
      match mapGet l k with
      | some s => if s.content = "" then none else some s
      | none => none := by
  induction l with
  | nil => rfl
  | cons p rest ih =>
      simp only [List.map_cons, List.nodup_cons] at hnd
      obtain ⟨k2, v2⟩ := p
      by_cases hk : k2 = k
      · subst hk
        simp only [keepNonEmpty, mapGet, if_pos rfl]
        by_cases h : v2.content = ""
        · rw [if_pos h]
          have hnone : mapGet rest k2 = none :=
            mapGet_eq_none_of_not_mem rest k2 (by simpa using hnd.1)
          rw [ih hnd.2, hnone]
          simp [h]
        · rw [if_neg h]
          simp only [mapGet, if_pos rfl]
          simp [h]
      · simp only [keepNonEmpty, mapGet]
        by_cases h : v2.content = ""
        · rw [if_pos h, if_neg hk]
          exact ih hnd.2
        · rw [if_neg h]
          simp only [mapGet]
          rw [if_neg hk, if_neg hk]
          exact ih hnd.2

/-- C4: `fromJSON (toJSON bb)` reproduces identity, budget, both timestamps,
and every section record (content, token count, per-section timestamp)
verbatim, except that sections stored with empty content are dropped. -/
theorem roundtrip_spec (bb : Blackboard) (hnd : (bb.sections.map Prod.fst).Nodup) :
    (Blackboard.fromJSON bb.toJSON).id = bb.id ∧
    (Blackboard.fromJSON bb.toJSON).targetPath = bb.targetPath ∧
    (Blackboard.fromJSON bb.toJSON).maxTokens = bb.maxTokens ∧
    (Blackboard.fromJSON bb.toJSON).createdAt = bb.createdAt ∧
    (Blackboard.fromJSON bb.toJSON).updatedAt = bb.updatedAt ∧
    (∀ name, (Blackboard.fromJSON bb.toJSON).getSection name = bb.getSection name) ∧
    (∀ name s, mapGet bb.sections name = some s → s.content ≠ "" →
        mapGet (Blackboard.fromJSON bb.toJSON).sections name = some s) ∧
    (∀ name s, mapGet bb.sections name = some s → s.content = "" →
        mapGet (Blackboard.fromJSON bb.toJSON).sections name = none) := by
  have hsec : (Blackboard.fromJSON bb.toJSON).sections = keepNonEmpty bb.sections := by
    show fromJSONSections bb.toJSON.sections = keepNonEmpty bb.sections
    have : bb.toJSON.sections = bb.sections := rfl
    rw [this, fromJSONSections_eq_keep bb.sections hnd]
  refine ⟨rfl, rfl, rfl, rfl, rfl, ?_, ?_, ?_⟩
  · intro name
    unfold Blackboard.getSection
    rw [hsec, mapGet_keepNonEmpty bb.sections hnd name]
    cases hm : mapGet bb.sections name with
    | none => rfl
    | some s =>
        by_cases h : s.content = ""
        · simp [h]
        · simp [h]
  · intro name s hm hne
    rw [hsec, mapGet_keepNonEmpty bb.sections hnd name, hm]
    simp [hne]
  · intro name s hm he
    rw [hsec, mapGet_keepNonEmpty bb.sections hnd name, hm]
    simp [he]

/-- A blackboard with one populated section and one empty-content section. -/
def bbRound : Blackboard :=
  { id := "i", targetPath := "t",
    sections := [("a", { name := "a", content := "hi", tokens := 1, updatedAt := 5 }),
                 ("b", { name := "b", content := "", tokens := 0, updatedAt := 6 })],
    maxTokens := 100, createdAt := 1, updatedAt := 2 }

/-- Witness for C4 on `bbRound`: timestamps and the non-empty section survive
the round-trip verbatim; the empty-content section is absent. -/
theorem roundtrip_spec_witness :
    (Blackboard.fromJSON bbRound.toJSON).updatedAt = bbRound.updatedAt ∧
    (Blackboard.fromJSON bbRound.toJSON).getSection "a" = bbRound.getSection "a" ∧
    mapGet (Blackboard.fromJSON bbRound.toJSON).sections "a" =
      some { name := "a", content := "hi", tokens := 1, updatedAt := 5 } ∧
    mapGet (Blackboard.fromJSON bbRound.toJSON).sections "b" = none :=
  ⟨(roundtrip_spec bbRound (by decide)).2.2.2.2.1,
   (roundtrip_spec bbRound (by decide)).2.2.2.2.2.1 "a",
   (roundtrip_spec bbRound (by decide)).2.2.2.2.2.2.1 "a"
     { name := "a", content := "hi", tokens := 1, updatedAt := 5 } (by decide) (by decide),
   (roundtrip_spec bbRound (by decide)).2.2.2.2.2.2.2 "b"
     { name := "b", content := "", tokens := 0, updatedAt := 6 } (by decide) rfl⟩


theorem strAppend_assoc (a b c : String) : a ++ b ++ c = a ++ (b ++ c) := by
  apply String.ext
  show (a.data ++ b.data) ++ c.data = a.data ++ (b.data ++ c.data)
  exact List.append_assoc a.data b.data c.data

theorem strAppend_empty_left (a : String) : "" ++ a = a := by
  apply String.ext
  show [] ++ a.data = a.data
  exact List.nil_append a.data

theorem mapGet_mapSet_self (m : List (String × BBSection)) (k : String) (v : BBSection) :
    mapGet (mapSet m k v) k = some v := by
  induction m with
  | nil => simp [mapSet, mapGet]
  | cons p rest ih =>
      obtain ⟨k2, v2⟩ := p
      by_cases h : k2 = k
      · simp [mapSet, mapGet, h]
      · simp only [mapSet, if_neg h, mapGet, if_neg h]
        exact ih

theorem mapGet_mapSet_ne (m : List (String × BBSection)) (k k2 : String) (v : BBSection)
    (h : k2 ≠ k) : mapGet (mapSet m k v) k2 = mapGet m k2 := by
  induction m with
  | nil =>
      have hne : ¬k = k2 := fun he => h he.symm
      simp [mapSet, mapGet, hne]
  | cons p rest ih =>
      obtain ⟨k3, v3⟩ := p
      by_cases hk : k3 = k
      · subst hk
        simp only [mapSet, if_pos rfl, mapGet]
        rw [if_neg (fun he => h he.symm), if_neg (fun he => h he.symm)]
      · simp only [mapSet, if_neg hk, mapGet]
        by_cases hk2 : k3 = k2
        · rw [if_pos hk2, if_pos hk2]
        · rw [if_neg hk2, if_neg hk2]
          exact ih

theorem updateSection_mapGet_ne (bb : Blackboard) (nm c : String) (r : Bool) (now : Nat)
    (k : String) (h : k ≠ nm) :
    mapGet ((bb.updateSection nm c r now).1).sections k = mapGet bb.sections k := by
  unfold Blackboard.updateSection
  dsimp only
  split
  · rfl
  · exact mapGet_mapSet_ne bb.sections nm k _ h

theorem updateSection_replace_getSection (bb : Blackboard) (nm c : String) (now : Nat)
    (h : (bb.updateSection nm c true now).2.success = true) :
    (bb.updateSection nm c true now).1.getSection nm = c := by
  unfold Blackboard.updateSection at h ⊢
  dsimp only at h ⊢
  split at h
  · simp at h
  · rename_i hc
    rw [if_neg hc]
    unfold Blackboard.getSection
    dsimp only
    rw [mapGet_mapSet_self]
    show newContentFor (mapGet bb.sections nm) c true = c
    cases mapGet bb.sections nm <;> rfl

theorem seedFold_failures_mono (now : Nat) (entries : List (String × String)) :
    ∀ (bb : Blackboard) (fs : List String),
      ∃ l, (entries.foldl (seedStep now) (bb, fs)).2 = fs ++ l := by
  induction entries with
  | nil => intro bb fs; exact ⟨[], by simp⟩
  | cons p rest ih =>
      intro bb fs
      simp only [List.foldl_cons]
      by_cases hs : (bb.updateSection p.1 p.2 true now).2.success = true
      · have hstep : seedStep now (bb, fs) p = ((bb.updateSection p.1 p.2 true now).1, fs) := by
          unfold seedStep
          dsimp only
          rw [if_pos hs]
        rw [hstep]
        exact ih _ fs
      · have hstep : seedStep now (bb, fs) p =
            ((bb.updateSection p.1 p.2 true now).1,
              fs ++ [p.1 ++ ": " ++ (bb.updateSection p.1 p.2 true now).2.message]) := by
          unfold seedStep
          dsimp only
          rw [if_neg hs]
        rw [hstep]
        obtain ⟨l, hl⟩ := ih (bb.updateSection p.1 p.2 true now).1
          (fs ++ [p.1 ++ ": " ++ (bb.updateSection p.1 p.2 true now).2.message])
        exact ⟨[p.1 ++ ": " ++ (bb.updateSection p.1 p.2 true now).2.message] ++ l,
          by rw [hl, List.append_assoc]⟩

theorem seedFold_preserves (now : Nat) (entries : List (String × String)) (k : String)
    (hk : ∀ q ∈ entries, q.1 ≠ k) :
    ∀ (bb : Blackboard) (fs : List String),
      mapGet ((entries.foldl (seedStep now) (bb, fs)).1).sections k = mapGet bb.sections k := by
  induction entries with
  | nil => intro bb fs; rfl
  | cons p rest ih =>
      intro bb fs
      simp only [List.foldl_cons]
      have hkp : k ≠ p.1 := fun he => hk p (List.mem_cons_self p rest) he.symm
      have hrest : ∀ q ∈ rest, q.1 ≠ k := fun q hq => hk q (List.mem_cons_of_mem p hq)
      by_cases hs : (bb.updateSection p.1 p.2 true now).2.success = true
      · have hstep : seedStep now (bb, fs) p = ((bb.updateSection p.1 p.2 true now).1, fs) := by
          unfold seedStep
          dsimp only
          rw [if_pos hs]
        rw [hstep, ih hrest]
        exact updateSection_mapGet_ne bb p.1 p.2 true now k hkp
      · have hstep : seedStep now (bb, fs) p =
            ((bb.updateSection p.1 p.2 true now).1,
              fs ++ [p.1 ++ ": " ++ (bb.updateSection p.1 p.2 true now).2.message]) := by
          unfold seedStep
          dsimp only
          rw [if_neg hs]
        rw [hstep, ih hrest]
        exact updateSection_mapGet_ne bb p.1 p.2 true now k hkp

theorem strAppend_empty_right (a : String) : a ++ "" = a := by
  apply String.ext
  show a.data ++ [] = a.data
  exact List.append_nil a.data

theorem seedFold_written (now : Nat) (entries : List (String × String)) :
    ∀ (bb : Blackboard) (fs : List String),
      ((entries.map Prod.fst).Nodup) →
      (entries.foldl (seedStep now) (bb, fs)).2 = fs →
      ∀ p ∈ entries, (entries.foldl (seedStep now) (bb, fs)).1.getSection p.1 = p.2 := by
  induction entries with
  | nil =>
      intro bb fs _ _ p hp
      cases hp
  | cons q rest ih =>
      intro bb fs hnd hfail p hp
      simp only [List.map_cons, List.nodup_cons] at hnd
      simp only [List.foldl_cons] at hfail ⊢
      by_cases hs : (bb.updateSection q.1 q.2 true now).2.success = true
      · have hstep : seedStep now (bb, fs) q = ((bb.updateSection q.1 q.2 true now).1, fs) := by
          unfold seedStep
          dsimp only
          rw [if_pos hs]
        rw [hstep] at hfail ⊢
        rcases List.mem_cons.mp hp with hpq | hpr
        · subst hpq
          have hknotin : ∀ r ∈ rest, r.1 ≠ p.1 := by
            intro r hr he
            exact hnd.1 (he ▸ List.mem_map_of_mem Prod.fst hr)
          have hpres := seedFold_preserves now rest p.1 hknotin
            (bb.updateSection p.1 p.2 true now).1 fs
          have hwrote := updateSection_replace_getSection bb p.1 p.2 now hs
          unfold Blackboard.getSection at hwrote ⊢
          rw [hpres]
          exact hwrote
        · exact ih _ fs hnd.2 hfail p hpr
      · have hstep : seedStep now (bb, fs) q =
            ((bb.updateSection q.1 q.2 true now).1,
              fs ++ [q.1 ++ ": " ++ (bb.updateSection q.1 q.2 true now).2.message]) := by
          unfold seedStep
          dsimp only
          rw [if_neg hs]
        rw [hstep] at hfail
        obtain ⟨l, hl⟩ := seedFold_failures_mono now rest
          (bb.updateSection q.1 q.2 true now).1
          (fs ++ [q.1 ++ ": " ++ (bb.updateSection q.1 q.2 true now).2.message])
        rw [hl] at hfail
        exfalso
        have hlen := congrArg List.length hfail
        simp at hlen

theorem joinSep_contains (sep : String) (l : List String) (f : String) (hf : f ∈ l) :
    ∃ u v, joinSep sep l = u ++ (f ++ v) := by
  induction l with
  | nil => cases hf
  | cons x rest ih =>
      cases rest with
      | nil =>
          rcases List.mem_singleton.mp hf with rfl
          refine ⟨"", "", ?_⟩
          rw [strAppend_empty_right, strAppend_empty_left]
          rfl
      | cons y rest2 =>
          rcases List.mem_cons.mp hf with hfx | hfr
          · subst hfx
            refine ⟨"", sep ++ joinSep sep (y :: rest2), ?_⟩
            rw [strAppend_empty_left]
            show f ++ sep ++ joinSep sep (y :: rest2) = f ++ (sep ++ joinSep sep (y :: rest2))
            rw [strAppend_assoc]
          · obtain ⟨u, v, huv⟩ := ih hfr
            refine ⟨x ++ sep ++ u, v, ?_⟩
            show x ++ sep ++ joinSep sep (y :: rest2) = x ++ sep ++ u ++ (f ++ v)
            rw [huv, strAppend_assoc (x ++ sep) u (f ++ v)]

/-- C3: `seed` is all-or-nothing. When it returns a blackboard, no entry was
rejected and every seeded section holds exactly its given content (replace
mode); when any entry is rejected it returns only an aggregate error whose
message embeds every failing section line, and no blackboard — partial or
otherwise — escapes. -/
theorem seed_spec (tp : String) (entries : List (String × String)) (mt : Nat) (id : String)
    (now : Nat) (hnd : (entries.map Prod.fst).Nodup) :
    (∀ bb, Blackboard.seed tp entries mt id now = .ok bb →
        (seedFold tp entries mt id now).2 = [] ∧
        ∀ p ∈ entries, bb.getSection p.1 = p.2) ∧
    (∀ msg, Blackboard.seed tp entries mt id now = .error msg →
        (seedFold tp entries mt id now).2 ≠ [] ∧
        ∀ f ∈ (seedFold tp entries mt id now).2, ∃ u v, msg = u ++ (f ++ v)) := by
  constructor
  · intro bb hok
    unfold Blackboard.seed at hok
    dsimp only at hok
    split at hok
    · cases hok
    · rename_i hlen
      have hempty : (seedFold tp entries mt id now).2 = [] := by
        cases h : (seedFold tp entries mt id now).2 with
        | nil => rfl
        | cons a l =>
            exfalso
            rw [h] at hlen
            simp at hlen
      refine ⟨hempty, ?_⟩
      injection hok with hbb
      intro p hp
      rw [← hbb]
      have := seedFold_written now entries (Blackboard.new tp mt id now) [] hnd
        (by
          show (seedFold tp entries mt id now).2 = []
          exact hempty) p hp
      exact this
  · intro msg herr
    unfold Blackboard.seed at herr
    dsimp only at herr
    split at herr
    · rename_i hlen
      injection herr with hmsg
      constructor
      · intro hnil
        rw [hnil] at hlen
        simp at hlen
      · intro f hf
        obtain ⟨u, v, huv⟩ := joinSep_contains "\n" (seedFold tp entries mt id now).2 f hf
        refine ⟨"Blackboard seed failed for " ++
          toString (seedFold tp entries mt id now).2.length ++ " section(s):\n" ++ u, v, ?_⟩
        rw [← hmsg, huv]
        simp only [strAppend_assoc]
    · cases herr

/-- Witness for C3: a roomy seed succeeds with every entry written; a seed with
an oversized entry yields the aggregate error message listing it. -/
theorem seed_spec_witness :
    ((seedFold "t" [("a", "ok")] 100 "i" 0).2 = [] ∧
      ∀ p ∈ [("a", "ok")], (seedFold "t" [("a", "ok")] 100 "i" 0).1.getSection p.1 = p.2) ∧
    ((seedFold "t" [("a", "ok"), ("b", "xxxxxxxx")] 1 "i" 0).2 ≠ [] ∧
      ∀ f ∈ (seedFold "t" [("a", "ok"), ("b", "xxxxxxxx")] 1 "i" 0).2,
        ∃ u v,
          "Blackboard seed failed for 1 section(s):\nb: Update would exceed hard token limit (3 > 1). Consider replacing content or removing other sections." =
            u ++ (f ++ v)) :=
  ⟨(seed_spec "t" [("a", "ok")] 100 "i" 0 (by decide)).1
      (seedFold "t" [("a", "ok")] 100 "i" 0).1
      (by unfold Blackboard.seed; rw [if_neg (by decide)]),
   (seed_spec "t" [("a", "ok"), ("b", "xxxxxxxx")] 1 "i" 0 (by decide)).2
      "Blackboard seed failed for 1 section(s):\nb: Update would exceed hard token limit (3 > 1). Consider replacing content or removing other sections."
      (by
        unfold Blackboard.seed
        rw [if_pos (by decide)]
        congr 1)⟩

/-- Severity skeleton of a warning: the text with every decimal digit removed,
so two warnings with equal skeletons differ only in the spliced count. -/
def stripDigits (s : String) : String :=
  ⟨s.data.filter (fun c => !c.isDigit)⟩


set_option maxRecDepth 4000 in
/-- C5 counterexample: the stall warnings at 3 and at 5 consecutive writeless
iterations (the latter past the fixed threshold 2 plus 2) are real warnings
whose digit-stripped texts are identical — the warning does not escalate in
severity, it only restates the count; nor is the threshold read from the
profile, whose type carries no such field. -/
theorem stall_warning_no_escalation :
    buildStallWarning 3 ≠ "" ∧ buildStallWarning 5 ≠ "" ∧
    stripDigits (buildStallWarning 3) = stripDigits (buildStallWarning 5) :=
  ⟨by decide, by decide, by decide⟩

/-- C5 amended: the system prompt contains the stall warning exactly when the
writeless-iteration count reaches the fixed threshold 2 (not a profile
setting), with the count spliced into one fixed template and no escalation at
threshold+2. -/
theorem stall_warning_amended (blackboard : Blackboard) (profile : AnalysisProfile)
    (tools : List ToolDef) (toolHistorySummary : String) (n : Nat) :
    (n < 2 → buildStallWarning n = "") ∧
    (2 ≤ n →
      generateSystemPrompt blackboard profile tools toolHistorySummary n =
        promptBeforeStall blackboard profile tools ++
          ((stallWarnHead ++ toString n ++ stallWarnTail) ++
            promptAfterStall blackboard profile tools toolHistorySummary)) := by
  constructor
  · intro h
    unfold buildStallWarning
    rw [if_pos h]
  · intro h
    unfold generateSystemPrompt buildStallWarning
    rw [if_neg (by omega)]
    rw [strAppend_assoc]

/-- A minimal analysis profile for concrete prompt evaluation. -/
def profileW : AnalysisProfile :=
  { name := "p", mission := "m", initialMessage := "im",
    suggestedSections := [], explorationHints := [], summaryInstructions := "s" }

/-- Witness for C5 (amended): at 1 writeless iteration no warning; at 2 the
prompt splices the warning template with count 2. -/
theorem stall_warning_amended_witness :
    buildStallWarning 1 = "" ∧
    generateSystemPrompt (Blackboard.new "t" 4000 "i" 0) profileW [] "" 2 =
      promptBeforeStall (Blackboard.new "t" 4000 "i" 0) profileW [] ++
        ((stallWarnHead ++ toString 2 ++ stallWarnTail) ++
          promptAfterStall (Blackboard.new "t" 4000 "i" 0) profileW [] "") :=
  ⟨(stall_warning_amended (Blackboard.new "t" 4000 "i" 0) profileW [] "" 1).1 (by decide),
   (stall_warning_amended (Blackboard.new "t" 4000 "i" 0) profileW [] "" 2).2 (by decide)⟩


theorem collectLineMatch_inv (matchLine : String → Option String) (line : String)
    (lineNum : Nat) (filePath : String) (ctx : GrepContext)
    (h : ctx.results.length ≤ ctx.maxResults) :
    (collectLineMatch matchLine line lineNum filePath ctx).results.length ≤
      (collectLineMatch matchLine line lineNum filePath ctx).maxResults := by
  unfold collectLineMatch
  split
  · exact h
  · rename_i hlt
    push_neg at hlt
    split
    · simp
      omega
    · exact h

theorem foldlCollect_inv (matchLine : String → Option String) (filePath : String)
    (lines : List (Nat × String)) :
    ∀ ctx : GrepContext, ctx.results.length ≤ ctx.maxResults →
      (lines.foldl (fun c p => collectLineMatch matchLine p.2 (p.1 + 1) filePath c)
          ctx).results.length ≤
        (lines.foldl (fun c p => collectLineMatch matchLine p.2 (p.1 + 1) filePath c)
          ctx).maxResults := by
  induction lines with
  | nil => intro ctx h; exact h
  | cons p rest ih =>
      intro ctx h
      simp only [List.foldl_cons]
      exact ih _ (collectLineMatch_inv matchLine p.2 (p.1 + 1) filePath ctx h)

theorem searchFile_inv (matchLine : String → Option String) (filePath content : String)
    (ctx : GrepContext) (h : ctx.results.length ≤ ctx.maxResults) :
    (searchFileForPattern matchLine filePath content ctx).results.length ≤
      (searchFileForPattern matchLine filePath content ctx).maxResults := by
  unfold searchFileForPattern
  split
  · exact h
  · exact foldlCollect_inv matchLine filePath (jsSplitLines content).enum ctx h

mutual

theorem processGrepEntry_inv (matchLine : String → Option String) (dirPath : String)
    (e : FSEntry) (ctx : GrepContext) (h : ctx.results.length ≤ ctx.maxResults) :
    (processGrepEntry matchLine dirPath e ctx).results.length ≤
      (processGrepEntry matchLine dirPath e ctx).maxResults := by
  unfold processGrepEntry
  cases e with
  | file n content =>
      dsimp only
      split
      · exact h
      · split
        · exact searchFile_inv matchLine (dirPath ++ "/" ++ n) content ctx h
        · exact h
  | dir n entries =>
      dsimp only
      split
      · exact h
      · exact walkDirectoryForGrep_inv matchLine (dirPath ++ "/" ++ n) entries ctx h
termination_by (sizeOf e, 0)

theorem walkDirectoryForGrep_inv (matchLine : String → Option String) (dirPath : String)
    (entries : List FSEntry) (ctx : GrepContext) (h : ctx.results.length ≤ ctx.maxResults) :
    (walkDirectoryForGrep matchLine dirPath entries ctx).results.length ≤
      (walkDirectoryForGrep matchLine dirPath entries ctx).maxResults := by
  unfold walkDirectoryForGrep
  split
  · exact h
  · exact grepEntriesLoop_inv matchLine dirPath entries ctx h
termination_by (sizeOf entries, 1)

theorem grepEntriesLoop_inv (matchLine : String → Option String) (dirPath : String)
    (entries : List FSEntry) (ctx : GrepContext) (h : ctx.results.length ≤ ctx.maxResults) :
    (grepEntriesLoop matchLine dirPath entries ctx).results.length ≤
      (grepEntriesLoop matchLine dirPath entries ctx).maxResults := by
  unfold grepEntriesLoop
  cases entries with
  | nil => exact h
  | cons e rest =>
      exact grepEntriesLoop_inv matchLine dirPath rest _
        (processGrepEntry_inv matchLine dirPath e ctx h)
termination_by (sizeOf entries, 0)

end

theorem collectLineMatch_max (matchLine : String → Option String) (line : String)
    (lineNum : Nat) (filePath : String) (ctx : GrepContext) :
    (collectLineMatch matchLine line lineNum filePath ctx).maxResults = ctx.maxResults := by
  unfold collectLineMatch
  split
  · rfl
  · split
    · rfl
    · rfl

theorem foldlCollect_max (matchLine : String → Option String) (filePath : String)
    (lines : List (Nat × String)) :
    ∀ ctx : GrepContext,
      (lines.foldl (fun c p => collectLineMatch matchLine p.2 (p.1 + 1) filePath c)
        ctx).maxResults = ctx.maxResults := by
  induction lines with
  | nil => intro ctx; rfl
  | cons p rest ih =>
      intro ctx
      simp only [List.foldl_cons]
      rw [ih, collectLineMatch_max]

theorem searchFile_max (matchLine : String → Option String) (filePath content : String)
    (ctx : GrepContext) :
    (searchFileForPattern matchLine filePath content ctx).maxResults = ctx.maxResults := by
  unfold searchFileForPattern
  split
  · rfl
  · exact foldlCollect_max matchLine filePath (jsSplitLines content).enum ctx

mutual

theorem processGrepEntry_max (matchLine : String → Option String) (dirPath : String)
    (e : FSEntry) (ctx : GrepContext) :
    (processGrepEntry matchLine dirPath e ctx).maxResults = ctx.maxResults := by
  unfold processGrepEntry
  cases e with
  | file n content =>
      dsimp only
      split
      · rfl
      · split
        · exact searchFile_max matchLine (dirPath ++ "/" ++ n) content ctx
        · rfl
  | dir n entries =>
      dsimp only
      split
      · rfl
      · exact walkDirectoryForGrep_max matchLine (dirPath ++ "/" ++ n) entries ctx
termination_by (sizeOf e, 0)

theorem walkDirectoryForGrep_max (matchLine : String → Option String) (dirPath : String)
    (entries : List FSEntry) (ctx : GrepContext) :
    (walkDirectoryForGrep matchLine dirPath entries ctx).maxResults = ctx.maxResults := by
  unfold walkDirectoryForGrep
  split
  · rfl
  · exact grepEntriesLoop_max matchLine dirPath entries ctx
termination_by (sizeOf entries, 1)

theorem grepEntriesLoop_max (matchLine : String → Option String) (dirPath : String)
    (entries : List FSEntry) (ctx : GrepContext) :
    (grepEntriesLoop matchLine dirPath entries ctx).maxResults = ctx.maxResults := by
  unfold grepEntriesLoop
  cases entries with
  | nil => rfl
  | cons e rest =>
      rw [grepEntriesLoop_max matchLine dirPath rest _,
        processGrepEntry_max matchLine dirPath e ctx]
termination_by (sizeOf entries, 0)

end

/-- C8: `grep_search` returns at most `max_results` matches, for every matcher,
search root (file or directory tree), and bound — collection short-circuits
once the bound is reached. -/
theorem grep_max_results (matchLine : String → Option String) (targetPath : String)
    (target : FSEntry) (maxResults : Nat) :
    (grepSearch matchLine targetPath target maxResults).length ≤ maxResults := by
  unfold grepSearch
  cases target with
  | file n content =>
      dsimp only
      have h1 := searchFile_inv matchLine targetPath content
        { results := [], maxResults := maxResults } (by simp)
      have h2 := searchFile_max matchLine targetPath content
        { results := [], maxResults := maxResults }
      rw [h2] at h1
      exact h1
  | dir n entries =>
      dsimp only
      have h1 := walkDirectoryForGrep_inv matchLine targetPath entries
        { results := [], maxResults := maxResults } (by simp)
      have h2 := walkDirectoryForGrep_max matchLine targetPath entries
        { results := [], maxResults := maxResults }
      rw [h2] at h1
      exact h1


/-- C9 counterexample: for an empty target directory `list_dir` outputs
`"Found 0 items:\n"` — with a trailing colon and newline from the header
template — not the exact string `"Found 0 items"`. -/
theorem empty_dir_counterexample :
    executeListDirOutput "/d" [] 3 ≠ "Found 0 items" := by
  unfold executeListDirOutput listDirectory
  rw [if_neg (by decide)]
  unfold dirEntriesLoop
  decide

/-- C9 amended: on an empty directory `list_dir` outputs exactly
`"Found 0 items:\n"` (so it begins with "Found 0 items"), and a
`grep_search` with no matches outputs exactly
`"No matches found for pattern: <pattern>"`. -/
theorem empty_dir_outputs_amended (path dname : String) (maxDepth : Nat)
    (matchLine : String → Option String) (pattern : String) (maxResults : Nat) :
    executeListDirOutput path [] maxDepth = "Found 0 items:\n" ∧
    executeGrepSearchOutput pattern (grepSearch matchLine path (.dir dname []) maxResults) =
      "No matches found for pattern: " ++ pattern := by
  constructor
  · unfold executeListDirOutput listDirectory
    have hempty : formatFileList [] path = "Found 0 items:\n" := rfl
    split
    · exact hempty
    · unfold dirEntriesLoop
      exact hempty
  · have h : grepSearch matchLine path (FSEntry.dir dname []) maxResults = [] := by
      unfold grepSearch walkDirectoryForGrep
      dsimp only
      split
      · rfl
      · unfold grepEntriesLoop
        rfl
    rw [h]
    rfl

end BlackboardAgent
